import Mathlib

/-!
Verification of the FDT (Flattened Device Tree) parser of the annwn kernel
(`src/fdt.rs`, with the alignment utility from `src/main.rs`).

Byte buffers are shallowly embedded as `List Nat` (each element one byte).
Fallible operations return `Option`; the places where the Rust code panics
(slice-index out of bounds, `unwrap` on a missing NUL terminator or invalid
UTF-8, an unrecognized struct tag, a failing `debug_assert!`) are modelled by
an explicit abort result carrying a `PanicKind`.  Machine-integer arithmetic
(`usize`) is modelled as `Nat` with explicit reduction modulo `2 ^ 64` where
the bit-level alignment computation requires it.
-/

/-- Bitwise AND computed bit by bit with explicit fuel (64 bits suffices for
`usize` operands).  Used to embed Rust's `&` on `usize` executably. -/
def andBits : Nat → Nat → Nat → Nat
  | 0, _, _ => 0
  | f + 1, a, b => a % 2 * (b % 2) + 2 * andBits f (a / 2) (b / 2)

/-- `util::align_up` from `src/main.rs`:
`(value + align - 1) & !(align - 1)` on 64-bit `usize` (wrapping model).
`!(align - 1)` on `usize` is `2 ^ 64 - 1 - (align - 1)`. -/
def align_up (value align : Nat) : Nat :=
  andBits 64 ((value + align - 1) % 2 ^ 64) (2 ^ 64 - 1 - (align - 1) % 2 ^ 64)

/-- Big-endian 32-bit value of four bytes (`u32::from_be_bytes`). -/
def be32 (a b c d : Nat) : Nat :=
  ((a * 256 + b) * 256 + c) * 256 + d

/-- Big-endian 32-bit read at byte offset `i` (out-of-range bytes read as 0;
every use in the theorems is guarded by a bounds hypothesis). -/
def be32At (l : List Nat) (i : Nat) : Nat :=
  be32 (l.getD i 0) (l.getD (i + 1) 0) (l.getD (i + 2) 0) (l.getD (i + 3) 0)

/-- Big-endian 64-bit read at byte offset `i` (`u64::from_be_bytes`): the
high 32-bit big-endian word followed by the low one. -/
def be64At (l : List Nat) (i : Nat) : Nat :=
  be32At l i * 2 ^ 32 + be32At l (i + 4)

/-- `CStr::from_bytes_until_nul`: the bytes strictly before the first NUL,
or `none` when no NUL byte occurs. -/
def bytesUntilNul : List Nat → Option (List Nat)
  | [] => none
  | b :: rest => if b = 0 then some [] else (bytesUntilNul rest).map (b :: ·)

/-- A UTF-8 continuation byte (`0x80 ..= 0xBF`). -/
def utf8Cont (b : Nat) : Bool :=
  decide (0x80 ≤ b ∧ b ≤ 0xBF)

/-- Rust's `str::from_utf8` validity check (the check behind
`CStr::to_str`), transcribed from the UTF-8 byte-sequence table. -/
def utf8Valid : List Nat → Bool
  | [] => true
  | b :: rest =>
    if b ≤ 0x7F then utf8Valid rest
    else if 0xC2 ≤ b ∧ b ≤ 0xDF then
      match rest with
      | c1 :: rest1 => utf8Cont c1 && utf8Valid rest1
      | [] => false
    else if b = 0xE0 then
      match rest with
      | c1 :: c2 :: rest1 =>
        decide (0xA0 ≤ c1 ∧ c1 ≤ 0xBF) && utf8Cont c2 && utf8Valid rest1
      | _ => false
    else if (0xE1 ≤ b ∧ b ≤ 0xEC) ∨ (0xEE ≤ b ∧ b ≤ 0xEF) then
      match rest with
      | c1 :: c2 :: rest1 => utf8Cont c1 && utf8Cont c2 && utf8Valid rest1
      | _ => false
    else if b = 0xED then
      match rest with
      | c1 :: c2 :: rest1 =>
        decide (0x80 ≤ c1 ∧ c1 ≤ 0x9F) && utf8Cont c2 && utf8Valid rest1
      | _ => false
    else if b = 0xF0 then
      match rest with
      | c1 :: c2 :: c3 :: rest1 =>
        decide (0x90 ≤ c1 ∧ c1 ≤ 0xBF) && utf8Cont c2 && utf8Cont c3 &&
          utf8Valid rest1
      | _ => false
    else if 0xF1 ≤ b ∧ b ≤ 0xF3 then
      match rest with
      | c1 :: c2 :: c3 :: rest1 =>
        utf8Cont c1 && utf8Cont c2 && utf8Cont c3 && utf8Valid rest1
      | _ => false
    else if b = 0xF4 then
      match rest with
      | c1 :: c2 :: c3 :: rest1 =>
        decide (0x80 ≤ c1 ∧ c1 ≤ 0x8F) && utf8Cont c2 && utf8Cont c3 &&
          utf8Valid rest1
      | _ => false
    else false

/-- Struct-block tag constants from `src/fdt.rs`. -/
def FDT_BEGIN_NODE : Nat := 0x1

def FDT_END_NODE : Nat := 0x2

def FDT_PROP : Nat := 0x3

def FDT_NOP : Nat := 0x4

def FDT_END : Nat := 0x9

/-- The ways `StructItemIter::next` can abort the process. -/
inductive PanicKind where
  | sliceOob
  | noNulTerminator
  | invalidUtf8
  | unrecognizedTag
  | assertFailed
deriving DecidableEq

/-- `enum StructItem` from `src/fdt.rs`; names and property values are raw
byte lists borrowed from the blob. -/
inductive StructItem where
  | BeginNode (name : List Nat)
  | EndNode
  | Prop (name : List Nat) (value : List Nat)
deriving DecidableEq

/-- `struct StructItemIter`: the remaining struct-block bytes and the (whole)
string-block bytes. -/
structure StructItemIter where
  dt_struct : List Nat
  dt_strings : List Nat
deriving DecidableEq

/-- Outcome of one `StructItemIter::next` call: a yielded token with the
successor state, exhaustion (`None`), or a process abort. -/
inductive StepResult where
  | item (t : StructItem) (s : StructItemIter)
  | done
  | fatal (k : PanicKind)
deriving DecidableEq

/-- The three fixed fields of a property record after its tag: the 4-byte
big-endian value length (`dt_struct[4..8]`), the 4-byte big-endian name
offset (`dt_struct[8..12]`), and the bytes after them (`dt_struct[12..]`);
`none` when fewer than 8 bytes follow the tag, where the slice indexing
panics. -/
def propFields : List Nat → Option (Nat × Nat × List Nat)
  | l0 :: l1 :: l2 :: l3 :: n0 :: n1 :: n2 :: n3 :: body =>
    some (be32 l0 l1 l2 l3, be32 n0 n1 n2 n3, body)
  | _ => none

/-- The body of `StructItemIter::next` (src/fdt.rs lines 179-215), one loop
iteration per 4-byte tag; the `FDT_NOP` arm continues the loop, so it is the
single recursive case.  The `FDT_END` arm models the `debug_assert!` that the
remainder is empty as an abort when it fails. -/
def structNextAux (strs : List Nat) : List Nat → StepResult
  | [] => .done
  | t0 :: t1 :: t2 :: t3 :: rest =>
    if be32 t0 t1 t2 t3 = FDT_BEGIN_NODE then
      match bytesUntilNul rest with
      | none => .fatal .noNulTerminator
      | some name =>
        if utf8Valid name then
          if align_up (name.length + 1) 4 ≤ rest.length then
            .item (.BeginNode name)
              ⟨rest.drop (align_up (name.length + 1) 4), strs⟩
          else .fatal .sliceOob
        else .fatal .invalidUtf8
    else if be32 t0 t1 t2 t3 = FDT_END_NODE then
      .item .EndNode ⟨rest, strs⟩
    else if be32 t0 t1 t2 t3 = FDT_PROP then
      match propFields rest with
      | none => .fatal .sliceOob
      | some (len, nameoff, body) =>
        if nameoff ≤ strs.length then
          match bytesUntilNul (strs.drop nameoff) with
          | none => .fatal .noNulTerminator
          | some name =>
            if utf8Valid name then
              if len ≤ body.length then
                if align_up len 4 ≤ body.length then
                  .item (.Prop name (body.take len))
                    ⟨body.drop (align_up len 4), strs⟩
                else .fatal .sliceOob
              else .fatal .sliceOob
            else .fatal .invalidUtf8
        else .fatal .sliceOob
    else if be32 t0 t1 t2 t3 = FDT_NOP then
      structNextAux strs rest
    else if be32 t0 t1 t2 t3 = FDT_END then
      if rest.isEmpty then .done else .fatal .assertFailed
    else .fatal .unrecognizedTag
  | _ :: _ => .fatal .sliceOob

/-- `StructItemIter::next` on the iterator state. -/
def structNext (s : StructItemIter) : StepResult :=
  structNextAux s.dt_strings s.dt_struct

/-- `struct FdtHeader`: the ten big-endian 32-bit header fields. -/
structure FdtHeader where
  magic : Nat
  totalsize : Nat
  off_dt_struct : Nat
  off_dt_strings : Nat
  off_mem_rsvmap : Nat
  version : Nat
  last_comp_version : Nat
  boot_cpuid_phys : Nat
  size_dt_strings : Nat
  size_dt_struct : Nat
deriving DecidableEq

/-- `FdtHeader::from_ptr`: read the ten fields big-endian at byte offsets
`4 * k`; fail on a magic mismatch or on `version < 17 || last_comp_version >
17`.  The byte region stands in for the raw pointer. -/
def FdtHeader.from_bytes (p : List Nat) : Option FdtHeader :=
  if be32At p 0 ≠ 0xd00dfeed then none
  else if be32At p 20 < 17 ∨ 17 < be32At p 24 then none
  else
    some
      { magic := be32At p 0
        totalsize := be32At p 4
        off_dt_struct := be32At p 8
        off_dt_strings := be32At p 12
        off_mem_rsvmap := be32At p 16
        version := be32At p 20
        last_comp_version := be32At p 24
        boot_cpuid_phys := be32At p 28
        size_dt_strings := be32At p 32
        size_dt_struct := be32At p 36 }

/-- `struct Fdt`: parsed header plus the borrowed blob bytes. -/
structure Fdt where
  header : FdtHeader
  data : List Nat
deriving DecidableEq

/-- `Fdt::from_ptr`: parse the header, then view exactly `totalsize` bytes
from the start of the region (`slice::from_raw_parts`). -/
def Fdt.from_bytes (p : List Nat) : Option Fdt :=
  (FdtHeader.from_bytes p).map fun h => ⟨h, p.take h.totalsize⟩

/-- `struct MemoryReservation`. -/
structure MemoryReservation where
  address : Nat
  size : Nat
deriving DecidableEq

/-- Decode one 16-byte reservation record: 8-byte big-endian address, then
8-byte big-endian size. -/
def memResvOf (c : List Nat) : MemoryReservation :=
  ⟨be64At c 0, be64At c 8⟩

/-- `chunks_exact(16)`, with fuel: consecutive complete 16-byte chunks, any
shorter trailing fragment discarded. -/
def chunks16Aux : Nat → List Nat → List (List Nat)
  | 0, _ => []
  | f + 1, l => if 16 ≤ l.length then l.take 16 :: chunks16Aux f (l.drop 16) else []

/-- `chunks_exact(16)` (the list's length is always sufficient fuel, as each
step consumes 16 bytes). -/
def chunks16 (l : List Nat) : List (List Nat) :=
  chunks16Aux l.length l

/-- The `map_while` closure of `Fdt::memory_reservations` folded over the
chunk list: decode records until the first all-zero one, excluded. -/
def mapWhileResv : List (List Nat) → List MemoryReservation
  | [] => []
  | c :: cs =>
    if (memResvOf c).address = 0 ∧ (memResvOf c).size = 0 then []
    else memResvOf c :: mapWhileResv cs

/-- `Fdt::memory_reservations`: slice from the reservation-block offset (the
slice panics when the offset exceeds the data length, modelled as `none`),
then decode 16-byte chunks up to the zero sentinel. -/
def Fdt.memory_reservations (f : Fdt) : Option (List MemoryReservation) :=
  if f.header.off_mem_rsvmap ≤ f.data.length then
    some (mapWhileResv (chunks16 (f.data.drop f.header.off_mem_rsvmap)))
  else none

/-- The struct-block slice taken by `Fdt::struct_items`:
`&data[off_dt_struct..][..size_dt_struct]`. -/
def Fdt.dt_struct_slice (f : Fdt) : List Nat :=
  (f.data.drop f.header.off_dt_struct).take f.header.size_dt_struct

/-- The string-block slice taken by `Fdt::struct_items`:
`&data[off_dt_strings..][..size_dt_strings]`. -/
def Fdt.dt_strings_slice (f : Fdt) : List Nat :=
  (f.data.drop f.header.off_dt_strings).take f.header.size_dt_strings

/-- `struct FdtNode`: a name plus the tokenizer cursor positioned right after
the node's `BeginNode` token. -/
structure FdtNode where
  name : List Nat
  iter : StructItemIter
deriving DecidableEq

/-- `struct Property`. -/
structure Property where
  name : List Nat
  value : List Nat
deriving DecidableEq

/-- `struct Children`: a duplicated cursor plus the nesting-depth counter. -/
structure Children where
  iter : StructItemIter
  depth : Nat
deriving DecidableEq

/-- `FdtNode::children`: duplicate the saved cursor, depth counter 1. -/
def FdtNode.children (n : FdtNode) : Children :=
  ⟨n.iter, 1⟩

/-- `FdtNode::properties` run to completion (the `map_while` over a duplicate
of the saved cursor): collect `Prop` tokens until the first non-`Prop` token
or stream end; `none` models a panic inside the scan or exhausted fuel. -/
def propertiesCollect : Nat → StructItemIter → Option (List Property)
  | 0, _ => none
  | f + 1, s =>
    match structNext s with
    | .item (.Prop name value) s' =>
      (propertiesCollect f s').map (⟨name, value⟩ :: ·)
    | .item (.BeginNode _) _ => some []
    | .item .EndNode _ => some []
    | .done => some []
    | .fatal _ => none

/-- `FdtNode::properties` on the node's saved cursor. -/
def FdtNode.properties (fuel : Nat) (n : FdtNode) : Option (List Property) :=
  propertiesCollect fuel n.iter

/-- The iteration of `Children::next` (src/fdt.rs lines 144-161) run to
completion, collecting the yielded child nodes: one fuel unit per consumed
token.  A yield happens exactly when the depth counter becomes 2 after a
`BeginNode`, and the yielded node is built from a duplicate of the cursor
positioned right after that `BeginNode` (`s'` below); the next `next` call
resumes from that same cursor with depth 2, which is exactly the recursive
call made here.  `none` models a panic mid-scan or exhausted fuel. -/
def childrenCollectAux : Nat → StructItemIter → Nat → Option (List FdtNode)
  | 0, _, _ => none
  | f + 1, s, d =>
    if d = 0 then some []
    else
      match structNext s with
      | .done => some []
      | .fatal _ => none
      | .item (.BeginNode name) s' =>
        if d + 1 = 2 then (childrenCollectAux f s' (d + 1)).map (⟨name, s'⟩ :: ·)
        else childrenCollectAux f s' (d + 1)
      | .item .EndNode s' =>
        if d - 1 = 0 then some [] else childrenCollectAux f s' (d - 1)
      | .item (.Prop _ _) s' => childrenCollectAux f s' d

/-- Run a `Children` value to completion, collecting the yielded child
nodes. -/
def childrenCollect (fuel : Nat) (c : Children) : Option (List FdtNode) :=
  childrenCollectAux fuel c.iter c.depth

/-- All tokens emitted by iterating `StructItemIter::next` to exhaustion;
`none` models a panic mid-stream or exhausted fuel. -/
def collectTokens : Nat → StructItemIter → Option (List StructItem)
  | 0, _ => none
  | f + 1, s =>
    match structNext s with
    | .done => some []
    | .fatal _ => none
    | .item t s' => (collectTokens f s').map (t :: ·)

/-- Record-level run of the `StructItemIter::next` loop over a whole struct
block, one fuel unit per 4-byte-tag record: returns the emitted tokens each
paired with the byte length of the record that produced it, together with
the total byte length of the control records (`FDT_NOP` and `FDT_END`) that
emit no token.  `none` models a panic or exhausted fuel.  The branch
structure and advancement amounts are those of src/fdt.rs lines 179-215. -/
def runStructAux (strs : List Nat) : Nat → List Nat → Option (List (StructItem × Nat) × Nat)
  | _, [] => some ([], 0)
  | 0, _ :: _ => none
  | f + 1, t0 :: t1 :: t2 :: t3 :: rest =>
    if be32 t0 t1 t2 t3 = FDT_BEGIN_NODE then
      match bytesUntilNul rest with
      | none => none
      | some name =>
        if utf8Valid name then
          if align_up (name.length + 1) 4 ≤ rest.length then
            (runStructAux strs f (rest.drop (align_up (name.length + 1) 4))).map
              fun r => ((.BeginNode name, 4 + align_up (name.length + 1) 4) :: r.1, r.2)
          else none
        else none
    else if be32 t0 t1 t2 t3 = FDT_END_NODE then
      (runStructAux strs f rest).map fun r => ((.EndNode, 4) :: r.1, r.2)
    else if be32 t0 t1 t2 t3 = FDT_PROP then
      match propFields rest with
      | none => none
      | some (len, nameoff, body) =>
        if nameoff ≤ strs.length then
          match bytesUntilNul (strs.drop nameoff) with
          | none => none
          | some name =>
            if utf8Valid name then
              if len ≤ body.length then
                if align_up len 4 ≤ body.length then
                  (runStructAux strs f (body.drop (align_up len 4))).map
                    fun r =>
                      ((.Prop name (body.take len),
                        4 + 4 + 4 + align_up len 4) :: r.1, r.2)
                else none
              else none
            else none
        else none
    else if be32 t0 t1 t2 t3 = FDT_NOP then
      (runStructAux strs f rest).map fun r => (r.1, r.2 + 4)
    else if be32 t0 t1 t2 t3 = FDT_END then
      if rest.isEmpty then some ([], 4) else none
    else none
  | _ + 1, _ :: _ => none

/-- `runStructAux` with its natural fuel (one record needs at least 4 bytes,
so the block length is always enough fuel). -/
def runStruct (strs l : List Nat) : Option (List (StructItem × Nat) × Nat) :=
  runStructAux strs l.length l

/-- The children enumeration as the claim words it, on the emitted token
stream: a nesting-depth counter starts at 1; a `BeginNode` increments it and
the node is emitted exactly when the counter becomes 2; an `EndNode`
decrements it and the enumeration terminates exactly when the counter
reaches 0; `Prop` tokens are skipped. -/
def childNamesSpec : List StructItem → Nat → List (List Nat)
  | [], _ => []
  | .BeginNode name :: toks, d =>
    (if d + 1 = 2 then [name] else []) ++ childNamesSpec toks (d + 1)
  | .EndNode :: toks, d =>
    if d - 1 = 0 then [] else childNamesSpec toks (d - 1)
  | .Prop _ _ :: toks, d => childNamesSpec toks d

/-- Which view a caller invokes on a node. -/
inductive CallKind where
  | props
  | childNames
deriving DecidableEq

/-- The result of one view call. -/
inductive CallResult where
  | props (r : Option (List Property))
  | childNames (r : Option (List FdtNode))
deriving DecidableEq

/-- One view call on a node.  Both views take the node by shared reference
(`&self`) and run on a duplicate of the saved cursor, so the call returns
the node unchanged alongside its result. -/
def nodeCall (fuel : Nat) (n : FdtNode) : CallKind → CallResult × FdtNode
  | .props => (.props (FdtNode.properties fuel n), n)
  | .childNames => (.childNames (childrenCollect fuel (FdtNode.children n)), n)

/-- A sequence of view calls on a node, each call receiving the node state
left by the previous one. -/
def runCalls (fuel : Nat) (n : FdtNode) : List CallKind → List CallResult
  | [] => []
  | k :: ks => (nodeCall fuel n k).1 :: runCalls fuel (nodeCall fuel n k).2 ks

/-- `CStr::from_bytes_until_nul` finds the bytes strictly before the first
NUL: the result contains no NUL and is followed by a NUL in the input. -/
theorem bytesUntilNul_spec :
    ∀ {l name : List Nat}, bytesUntilNul l = some name →
      0 ∉ name ∧ l.take (name.length + 1) = name ++ [0] := by
  intro l
  induction l with
  | nil => intro name h; simp [bytesUntilNul] at h
  | cons b rest ih =>
    intro name h
    rw [bytesUntilNul] at h
    by_cases hb : b = 0
    · rw [if_pos hb] at h
      obtain rfl : name = [] := (Option.some_inj.mp h).symm
      subst hb
      simp
    · rw [if_neg hb] at h
      obtain ⟨name1, hname1, rfl⟩ := Option.map_eq_some'.mp h
      obtain ⟨h1, h2⟩ := ih hname1
      refine ⟨?_, ?_⟩
      · simp only [List.mem_cons, not_or]
        exact ⟨fun hh => hb hh.symm, h1⟩
      · simp only [List.length_cons, List.take_succ_cons, List.cons_append,
          List.cons.injEq, true_and]
        exact h2

/-- When no chunk decodes to the all-zero pair, the `map_while` decodes every
chunk. -/
theorem mapWhileResv_all :
    ∀ {cs : List (List Nat)},
      (∀ c ∈ cs, ¬((memResvOf c).address = 0 ∧ (memResvOf c).size = 0)) →
      mapWhileResv cs = cs.map memResvOf := by
  intro cs
  induction cs with
  | nil => intro _; rfl
  | cons c cs ih =>
    intro h
    rw [mapWhileResv, if_neg (h c (by simp)), List.map_cons,
      ih fun c' hc' => h c' (by simp [hc'])]

/-- The `map_while` stops at the first all-zero chunk, excluding it, and
decodes every prior chunk in order. -/
theorem mapWhileResv_sentinel :
    ∀ (pre : List (List Nat)) (zc : List Nat) (post : List (List Nat)),
      (∀ c ∈ pre, ¬((memResvOf c).address = 0 ∧ (memResvOf c).size = 0)) →
      ((memResvOf zc).address = 0 ∧ (memResvOf zc).size = 0) →
      mapWhileResv (pre ++ zc :: post) = pre.map memResvOf := by
  intro pre
  induction pre with
  | nil => intro zc post _ hzc; rw [List.nil_append, mapWhileResv, if_pos hzc]; rfl
  | cons c pre ih =>
    intro zc post hpre hzc
    rw [List.cons_append, mapWhileResv, if_neg (hpre c (by simp)), List.map_cons,
      ih zc post (fun c' hc' => hpre c' (by simp [hc'])) hzc]

/-- With fuel at least the list length, `chunks16Aux` produces one chunk per
complete 16-byte run. -/
theorem chunks16Aux_len :
    ∀ (f : Nat) (l : List Nat), l.length ≤ f →
      (chunks16Aux f l).length = l.length / 16 := by
  intro f
  induction f with
  | zero =>
    intro l h
    rw [chunks16Aux]
    simp only [List.length_nil]
    omega
  | succ f ih =>
    intro l h
    rw [chunks16Aux]
    by_cases h16 : 16 ≤ l.length
    · rw [if_pos h16, List.length_cons, ih (l.drop 16) (by simp; omega),
        List.length_drop]
      omega
    · rw [if_neg h16]
      simp only [List.length_nil]
      omega

/-- `chunks_exact(16)` yields exactly one chunk per complete 16-byte record;
any shorter trailing fragment contributes nothing. -/
theorem chunks16_length (l : List Nat) : (chunks16 l).length = l.length / 16 :=
  chunks16Aux_len l.length l le_rfl

/-- A property record's remainder is its two 4-byte fields plus the body. -/
theorem propFields_length :
    ∀ {rest : List Nat} {len off : Nat} {body : List Nat},
      propFields rest = some (len, off, body) → rest.length = 8 + body.length := by
  intro rest len off body h
  rcases rest with _ | ⟨l0, _ | ⟨l1, _ | ⟨l2, _ | ⟨l3, _ | ⟨n0, _ | ⟨n1, _ | ⟨n2, _ | ⟨n3, body1⟩⟩⟩⟩⟩⟩⟩⟩
  all_goals try exact Option.noConfusion h
  have h' : some (be32 l0 l1 l2 l3, be32 n0 n1 n2 n3, body1) = some (len, off, body) := h
  rw [Option.some_inj, Prod.mk.injEq, Prod.mk.injEq] at h'
  obtain ⟨-, -, rfl⟩ := h'
  simp only [List.length_cons]
  omega

/-- The record-level tokenizer run consumes the whole block: the bytes of
the emitted tokens' records plus the bytes of the control records add up to
the block length. -/
theorem runStructAux_sum (strs : List Nat) :
    ∀ (f : Nat) (l : List Nat) (ts : List (StructItem × Nat)) (ctrl : Nat),
      runStructAux strs f l = some (ts, ctrl) →
      (ts.map (·.2)).sum + ctrl = l.length := by
  intro f
  induction f with
  | zero =>
    intro l ts ctrl h
    cases l with
    | nil =>
      have h' : some (([] : List (StructItem × Nat)), (0 : Nat)) = some (ts, ctrl) := h
      rw [Option.some_inj, Prod.mk.injEq] at h'
      obtain ⟨rfl, rfl⟩ := h'
      simp
    | cons a l1 => exact Option.noConfusion h
  | succ f ih =>
    intro l ts ctrl h
    rcases l with _ | ⟨t0, _ | ⟨t1, _ | ⟨t2, _ | ⟨t3, rest⟩⟩⟩⟩
    · have h' : some (([] : List (StructItem × Nat)), (0 : Nat)) = some (ts, ctrl) := h
      rw [Option.some_inj, Prod.mk.injEq] at h'
      obtain ⟨rfl, rfl⟩ := h'
      simp
    · exact Option.noConfusion h
    · exact Option.noConfusion h
    · exact Option.noConfusion h
    · rw [runStructAux] at h
      repeat' split at h
      all_goals
        first
        | exact Option.noConfusion h
        | (rw [Option.some_inj, Prod.mk.injEq] at h
           obtain ⟨rfl, rfl⟩ := h
           rename_i he
           rw [List.isEmpty_iff] at he
           subst he
           simp)
        | (obtain ⟨⟨ts1, ctrl1⟩, hrun, heq⟩ := Option.map_eq_some'.mp h
           simp only [Prod.mk.injEq] at heq
           obtain ⟨rfl, rfl⟩ := heq
           have hsum := ih _ ts1 ctrl1 hrun
           simp only [List.length_drop] at hsum
           simp only [List.map_cons, List.sum_cons, List.length_cons]
           try have hpf := propFields_length (by assumption)
           omega)

/-- The children enumeration, run on the cursor of a node, yields exactly
the `BeginNode` tokens that the depth-counter scan of the specification
selects from the emitted token stream. -/
theorem childrenCollectAux_eq_spec :
    ∀ (f : Nat) (s : StructItemIter) (d : Nat) (toks : List StructItem),
      collectTokens f s = some toks → 0 < d →
      ∃ nodes, childrenCollectAux f s d = some nodes ∧
        nodes.map FdtNode.name = childNamesSpec toks d := by
  intro f
  induction f with
  | zero => intro s d toks h hd; exact Option.noConfusion h
  | succ f ih =>
    intro s d toks h hd
    have hd0 : ¬d = 0 := by omega
    rw [collectTokens] at h
    cases hs : structNext s with
    | done =>
      rw [hs] at h
      obtain rfl : toks = [] := (Option.some_inj.mp h).symm
      have e : childrenCollectAux (f + 1) s d = some [] := by
        rw [childrenCollectAux, if_neg hd0, hs]
      exact ⟨[], e, rfl⟩
    | fatal k =>
      rw [hs] at h
      exact Option.noConfusion h
    | item t s1 =>
      rw [hs] at h
      obtain ⟨toks1, htoks1, rfl⟩ := Option.map_eq_some'.mp h
      rcases t with ⟨name⟩ | _ | ⟨name, value⟩
      · by_cases h2 : d + 1 = 2
        · have e : childrenCollectAux (f + 1) s d
              = (childrenCollectAux f s1 (d + 1)).map (⟨name, s1⟩ :: ·) := by
            rw [childrenCollectAux, if_neg hd0, hs]
            show (if d + 1 = 2
                then (childrenCollectAux f s1 (d + 1)).map (⟨name, s1⟩ :: ·)
                else childrenCollectAux f s1 (d + 1)) = _
            rw [if_pos h2]
          obtain ⟨nodes1, hn1, hn2⟩ := ih s1 (d + 1) toks1 htoks1 (by omega)
          refine ⟨⟨name, s1⟩ :: nodes1, by rw [e, hn1]; rfl, ?_⟩
          rw [List.map_cons, hn2, childNamesSpec, if_pos h2]
          rfl
        · have e : childrenCollectAux (f + 1) s d
              = childrenCollectAux f s1 (d + 1) := by
            rw [childrenCollectAux, if_neg hd0, hs]
            show (if d + 1 = 2
                then (childrenCollectAux f s1 (d + 1)).map (⟨name, s1⟩ :: ·)
                else childrenCollectAux f s1 (d + 1)) = _
            rw [if_neg h2]
          obtain ⟨nodes1, hn1, hn2⟩ := ih s1 (d + 1) toks1 htoks1 (by omega)
          refine ⟨nodes1, by rw [e, hn1], ?_⟩
          rw [hn2, childNamesSpec, if_neg h2]
          rfl
      · by_cases h1 : d - 1 = 0
        · have e : childrenCollectAux (f + 1) s d = some [] := by
            rw [childrenCollectAux, if_neg hd0, hs]
            show (if d - 1 = 0 then some []
                else childrenCollectAux f s1 (d - 1)) = _
            rw [if_pos h1]
          exact ⟨[], e, by rw [childNamesSpec, if_pos h1]; rfl⟩
        · have e : childrenCollectAux (f + 1) s d
              = childrenCollectAux f s1 (d - 1) := by
            rw [childrenCollectAux, if_neg hd0, hs]
            show (if d - 1 = 0 then some []
                else childrenCollectAux f s1 (d - 1)) = _
            rw [if_neg h1]
          obtain ⟨nodes1, hn1, hn2⟩ := ih s1 (d - 1) toks1 htoks1 (by omega)
          exact ⟨nodes1, by rw [e, hn1], by rw [childNamesSpec, if_neg h1]; exact hn2⟩
      · have e : childrenCollectAux (f + 1) s d = childrenCollectAux f s1 d := by
          rw [childrenCollectAux, if_neg hd0, hs]
        obtain ⟨nodes1, hn1, hn2⟩ := ih s1 d toks1 htoks1 hd
        exact ⟨nodes1, by rw [e, hn1], by rw [childNamesSpec]; exact hn2⟩

/-- C1: from a cursor positioned immediately after a node's `BeginNode`
token, the children enumeration (the iterated `Children::next` scan with its
depth counter starting at 1, incrementing on `BeginNode`, yielding exactly
when the counter becomes 2 from a duplicate of the cursor right after that
`BeginNode`, decrementing on `EndNode`, terminating when the counter reaches
0, and skipping `Property` tokens) yields precisely the nodes at nesting
depth one below, in stream order, skipping deeper subtrees. -/
theorem C1_children_depth_scan (n : FdtNode) (fuel : Nat) (toks : List StructItem)
    (h : collectTokens fuel n.iter = some toks) :
    ∃ nodes, childrenCollect fuel (FdtNode.children n) = some nodes ∧
      nodes.map FdtNode.name = childNamesSpec toks 1 :=
  childrenCollectAux_eq_spec fuel n.iter 1 toks h (by omega)

/-- Witness for C1 at Scenario B (`root{ a{} c{} }`): the root cursor sees
tokens `BeginNode "a", EndNode, BeginNode "c", EndNode, EndNode`, and the
children enumeration yields the nodes named `"a"` then `"c"`. -/
theorem C1_children_depth_scan_witness :
    ∃ nodes,
      childrenCollect 28
        (FdtNode.children ⟨[], ⟨[0, 0, 0, 1, 97, 0, 0, 0, 0, 0, 0, 2, 0, 0, 0, 1,
          99, 0, 0, 0, 0, 0, 0, 2, 0, 0, 0, 2, 0, 0, 0, 9], []⟩⟩) = some nodes ∧
      nodes.map FdtNode.name
        = childNamesSpec [.BeginNode [97], .EndNode, .BeginNode [99],
            .EndNode, .EndNode] 1 :=
  C1_children_depth_scan
    ⟨[], ⟨[0, 0, 0, 1, 97, 0, 0, 0, 0, 0, 0, 2, 0, 0, 0, 1, 99, 0, 0, 0,
      0, 0, 0, 2, 0, 0, 0, 2, 0, 0, 0, 9], []⟩⟩ 28
    [.BeginNode [97], .EndNode, .BeginNode [99], .EndNode, .EndNode]
    (by decide)

/-- C2: a tokenizer step on a struct-block remainder beginning with the
`PROPERTY` tag reads the 4-byte big-endian value length and name offset
after the tag, resolves the name by NUL scan from that offset in the string
block, takes the next value-length bytes after the two fields as the value,
emits the `Property` token, and advances the cursor by
`4 + 4 + 4 + align_up(value-length, 4)`. -/
theorem C2_property_step (strs : List Nat)
    (t0 t1 t2 t3 l0 l1 l2 l3 n0 n1 n2 n3 : Nat) (body name : List Nat)
    (htag : be32 t0 t1 t2 t3 = FDT_PROP)
    (hoff : be32 n0 n1 n2 n3 ≤ strs.length)
    (hname : bytesUntilNul (strs.drop (be32 n0 n1 n2 n3)) = some name)
    (hutf : utf8Valid name = true)
    (hlen : be32 l0 l1 l2 l3 ≤ body.length)
    (halign : align_up (be32 l0 l1 l2 l3) 4 ≤ body.length) :
    structNext ⟨t0 :: t1 :: t2 :: t3 :: l0 :: l1 :: l2 :: l3 ::
        n0 :: n1 :: n2 :: n3 :: body, strs⟩
      = .item (.Prop name (body.take (be32 l0 l1 l2 l3)))
          ⟨body.drop (align_up (be32 l0 l1 l2 l3) 4), strs⟩ ∧
    (body.drop (align_up (be32 l0 l1 l2 l3) 4)).length
        + (4 + 4 + 4 + align_up (be32 l0 l1 l2 l3) 4)
      = (t0 :: t1 :: t2 :: t3 :: l0 :: l1 :: l2 :: l3 ::
          n0 :: n1 :: n2 :: n3 :: body).length := by
  constructor
  · show structNextAux strs (t0 :: t1 :: t2 :: t3 :: l0 :: l1 :: l2 :: l3 ::
        n0 :: n1 :: n2 :: n3 :: body) = _
    rw [structNextAux, htag]
    simp [propFields, hname, hoff, hutf, hlen, halign,
      FDT_BEGIN_NODE, FDT_END_NODE, FDT_PROP]
  · simp only [List.length_drop, List.length_cons]
    omega

/-- Witness for C2: a property record with value length 5, name offset 0
into a string block reading `compatible\0`, value bytes `test\0` plus three
alignment padding bytes. -/
theorem C2_property_step_witness :
    structNext ⟨[0, 0, 0, 3, 0, 0, 0, 5, 0, 0, 0, 0, 116, 101, 115, 116, 0, 0, 0, 0],
        [99, 111, 109, 112, 97, 116, 105, 98, 108, 101, 0]⟩
      = .item (.Prop [99, 111, 109, 112, 97, 116, 105, 98, 108, 101]
          ([116, 101, 115, 116, 0, 0, 0, 0].take (be32 0 0 0 5)))
          ⟨[116, 101, 115, 116, 0, 0, 0, 0].drop (align_up (be32 0 0 0 5) 4),
            [99, 111, 109, 112, 97, 116, 105, 98, 108, 101, 0]⟩ :=
  (C2_property_step [99, 111, 109, 112, 97, 116, 105, 98, 108, 101, 0]
    0 0 0 3 0 0 0 5 0 0 0 0 [116, 101, 115, 116, 0, 0, 0, 0]
    [99, 111, 109, 112, 97, 116, 105, 98, 108, 101]
    (by decide) (by decide) (by decide) (by decide) (by decide) (by decide)).1

/-- C3: a tokenizer step on a struct-block remainder beginning with the
`BEGIN_NODE` tag reads the NUL-terminated name starting at byte offset 4
(the emitted name excludes the terminator and contains no NUL), advances
the cursor by 4 plus the name length including the terminator rounded up to
the next 4-byte boundary, and emits the `BeginNode` token. -/
theorem C3_begin_node_step (strs : List Nat) (t0 t1 t2 t3 : Nat)
    (rest name : List Nat)
    (htag : be32 t0 t1 t2 t3 = FDT_BEGIN_NODE)
    (hname : bytesUntilNul rest = some name)
    (hutf : utf8Valid name = true)
    (halign : align_up (name.length + 1) 4 ≤ rest.length) :
    structNext ⟨t0 :: t1 :: t2 :: t3 :: rest, strs⟩
      = .item (.BeginNode name) ⟨rest.drop (align_up (name.length + 1) 4), strs⟩ ∧
    (rest.drop (align_up (name.length + 1) 4)).length
        + (4 + align_up (name.length + 1) 4)
      = (t0 :: t1 :: t2 :: t3 :: rest).length ∧
    0 ∉ name ∧ rest.take (name.length + 1) = name ++ [0] := by
  refine ⟨?_, ?_, bytesUntilNul_spec hname⟩
  · show structNextAux strs (t0 :: t1 :: t2 :: t3 :: rest) = _
    rw [structNextAux, htag]
    simp [hname, hutf, halign, FDT_BEGIN_NODE]
  · simp only [List.length_drop, List.length_cons]
    omega

/-- Witness for C3: `BeginNode` with name `"a"` (two name bytes rounded up
to four) followed by an `EndNode` record. -/
theorem C3_begin_node_step_witness :
    structNext ⟨[0, 0, 0, 1, 97, 0, 0, 0, 0, 0, 0, 2], []⟩
      = .item (.BeginNode [97])
          ⟨[97, 0, 0, 0, 0, 0, 0, 2].drop (align_up ([97].length + 1) 4), []⟩ :=
  (C3_begin_node_step [] 0 0 0 1 [97, 0, 0, 0, 0, 0, 0, 2] [97]
    (by decide) (by decide) (by decide) (by decide)).1

/-- C4: any sequence of `properties()` / `children()` calls on a node value
returns, at every position, exactly the result of that call on the original
node — each view runs on an independent duplicate of the saved cursor, never
disturbs the node, and repeated calls in any order yield identical
results. -/
theorem C4_views_restartable (fuel : Nat) (n : FdtNode) (ks : List CallKind) :
    runCalls fuel n ks = ks.map (fun k => (nodeCall fuel n k).1) ∧
      ∀ k, (nodeCall fuel n k).2 = n := by
  have hfix : ∀ k, (nodeCall fuel n k).2 = n := by
    intro k
    cases k <;> rfl
  refine ⟨?_, hfix⟩
  induction ks with
  | nil => rfl
  | cons k ks ih =>
    rw [runCalls, List.map_cons, hfix k, ih]

/-- Witness for C4: on the Scenario B root node, a properties call followed
by two children calls returns the fresh-node result of each call. -/
theorem C4_views_restartable_witness :
    runCalls 28
        ⟨[], ⟨[0, 0, 0, 1, 97, 0, 0, 0, 0, 0, 0, 2, 0, 0, 0, 1, 99, 0, 0, 0,
          0, 0, 0, 2, 0, 0, 0, 2, 0, 0, 0, 9], []⟩⟩
        [.props, .childNames, .childNames]
      = [.props, .childNames, .childNames].map
          (fun k => (nodeCall 28
            ⟨[], ⟨[0, 0, 0, 1, 97, 0, 0, 0, 0, 0, 0, 2, 0, 0, 0, 1, 99, 0, 0, 0,
              0, 0, 0, 2, 0, 0, 0, 2, 0, 0, 0, 9], []⟩⟩ k).1) :=
  (C4_views_restartable 28
    ⟨[], ⟨[0, 0, 0, 1, 97, 0, 0, 0, 0, 0, 0, 2, 0, 0, 0, 1, 99, 0, 0, 0,
      0, 0, 0, 2, 0, 0, 0, 2, 0, 0, 0, 9], []⟩⟩
    [.props, .childNames, .childNames]).1

/-- C5: header parsing fails exactly when the magic word differs from
`0xd00dfeed`, the version is below 17, or the lowest compatible version is
above 17; on success it returns the ten header fields read big-endian at
their fixed offsets together with a view of exactly `totalsize` bytes. -/
theorem C5_header_validation (p : List Nat) (h40 : 40 ≤ p.length) :
    (Fdt.from_bytes p = none ↔
      be32At p 0 ≠ 0xd00dfeed ∨ be32At p 20 < 17 ∨ 17 < be32At p 24) ∧
    ∀ fdt : Fdt, Fdt.from_bytes p = some fdt →
      fdt.header = ⟨be32At p 0, be32At p 4, be32At p 8, be32At p 12,
        be32At p 16, be32At p 20, be32At p 24, be32At p 28, be32At p 32,
        be32At p 36⟩ ∧
      fdt.data = p.take (be32At p 4) ∧
      (be32At p 4 ≤ p.length → fdt.data.length = be32At p 4) := by
  constructor
  · rw [Fdt.from_bytes, FdtHeader.from_bytes]
    by_cases h1 : be32At p 0 ≠ 0xd00dfeed
    · rw [if_pos h1]
      simp [h1]
    · rw [if_neg h1]
      by_cases h2 : be32At p 20 < 17 ∨ 17 < be32At p 24
      · rw [if_pos h2]
        simp
        tauto
      · rw [if_neg h2]
        simp only [Option.map_some']
        constructor
        · intro hc
          exact Option.noConfusion hc
        · intro hc
          rw [not_or] at h2
          rcases hc with hc | hc | hc
          · exact absurd hc h1
          · exact absurd hc h2.1
          · exact absurd hc h2.2
  · intro fdt hf
    rw [Fdt.from_bytes, FdtHeader.from_bytes] at hf
    by_cases h1 : be32At p 0 ≠ 0xd00dfeed
    · rw [if_pos h1] at hf
      exact Option.noConfusion hf
    · rw [if_neg h1] at hf
      by_cases h2 : be32At p 20 < 17 ∨ 17 < be32At p 24
      · rw [if_pos h2] at hf
        exact Option.noConfusion hf
      · rw [if_neg h2] at hf
        rw [Option.map_some', Option.some_inj] at hf
        subst hf
        refine ⟨rfl, rfl, fun hts => ?_⟩
        simp only [List.length_take]
        omega

/-- Witness for C5: a 44-byte region with correct magic, `totalsize = 44`,
version 17 and lowest compatible version 17 parses successfully, and the
failure condition is false on it. -/
theorem C5_header_validation_witness :
    (Fdt.from_bytes [0xd0, 0x0d, 0xfe, 0xed, 0, 0, 0, 44, 0, 0, 0, 40, 0, 0, 0, 40,
        0, 0, 0, 40, 0, 0, 0, 17, 0, 0, 0, 17, 0, 0, 0, 7, 0, 0, 0, 2,
        0, 0, 0, 4, 9, 9, 9, 9] = none ↔
      be32At [0xd0, 0x0d, 0xfe, 0xed, 0, 0, 0, 44, 0, 0, 0, 40, 0, 0, 0, 40,
        0, 0, 0, 40, 0, 0, 0, 17, 0, 0, 0, 17, 0, 0, 0, 7, 0, 0, 0, 2,
        0, 0, 0, 4, 9, 9, 9, 9] 0 ≠ 0xd00dfeed ∨
      be32At [0xd0, 0x0d, 0xfe, 0xed, 0, 0, 0, 44, 0, 0, 0, 40, 0, 0, 0, 40,
        0, 0, 0, 40, 0, 0, 0, 17, 0, 0, 0, 17, 0, 0, 0, 7, 0, 0, 0, 2,
        0, 0, 0, 4, 9, 9, 9, 9] 20 < 17 ∨
      17 < be32At [0xd0, 0x0d, 0xfe, 0xed, 0, 0, 0, 44, 0, 0, 0, 40, 0, 0, 0, 40,
        0, 0, 0, 40, 0, 0, 0, 17, 0, 0, 0, 17, 0, 0, 0, 7, 0, 0, 0, 2,
        0, 0, 0, 4, 9, 9, 9, 9] 24) :=
  (C5_header_validation [0xd0, 0x0d, 0xfe, 0xed, 0, 0, 0, 44, 0, 0, 0, 40, 0, 0, 0, 40,
        0, 0, 0, 40, 0, 0, 0, 17, 0, 0, 0, 17, 0, 0, 0, 7, 0, 0, 0, 2,
        0, 0, 0, 4, 9, 9, 9, 9] (by decide)).1

/-- C6: memory-reservation enumeration decodes consecutive 16-byte records
(8-byte big-endian address, then 8-byte big-endian size) from the
reservation-block offset, stops without emitting at the first record whose
address and size are both zero, and emits every prior record in file
order. -/
theorem C6_memresv_sentinel (f : Fdt) (pre post : List (List Nat))
    (zc : List Nat)
    (hoff : f.header.off_mem_rsvmap ≤ f.data.length)
    (hsplit : chunks16 (f.data.drop f.header.off_mem_rsvmap) = pre ++ zc :: post)
    (hpre : ∀ c ∈ pre, ¬((memResvOf c).address = 0 ∧ (memResvOf c).size = 0))
    (hzc : (memResvOf zc).address = 0 ∧ (memResvOf zc).size = 0) :
    f.memory_reservations = some (pre.map memResvOf) := by
  rw [Fdt.memory_reservations, if_pos hoff, hsplit,
    mapWhileResv_sentinel pre zc post hpre hzc]

/-- Witness for C6 at Scenario C: two non-zero records followed by the zero
sentinel produce exactly the two decoded reservations, in order. -/
theorem C6_memresv_sentinel_witness :
    Fdt.memory_reservations
        ⟨⟨1, 2, 3, 4, 0, 5, 6, 7, 8, 9⟩,
          [11, 12, 13, 14, 15, 16, 17, 18, 21, 22, 23, 24, 25, 26, 27, 28,
           31, 32, 33, 34, 35, 36, 37, 38, 41, 42, 43, 44, 45, 46, 47, 48]
            ++ List.replicate 16 0⟩
      = some ([[11, 12, 13, 14, 15, 16, 17, 18, 21, 22, 23, 24, 25, 26, 27, 28],
          [31, 32, 33, 34, 35, 36, 37, 38, 41, 42, 43, 44, 45, 46, 47, 48]].map
            memResvOf) :=
  C6_memresv_sentinel
    ⟨⟨1, 2, 3, 4, 0, 5, 6, 7, 8, 9⟩,
      [11, 12, 13, 14, 15, 16, 17, 18, 21, 22, 23, 24, 25, 26, 27, 28,
       31, 32, 33, 34, 35, 36, 37, 38, 41, 42, 43, 44, 45, 46, 47, 48]
        ++ List.replicate 16 0⟩
    [[11, 12, 13, 14, 15, 16, 17, 18, 21, 22, 23, 24, 25, 26, 27, 28],
     [31, 32, 33, 34, 35, 36, 37, 38, 41, 42, 43, 44, 45, 46, 47, 48]]
    []
    (List.replicate 16 0)
    (by decide) (by decide) (by decide) (by decide)

/-- C7 (amended): reading the `END` tag advances the cursor by 4; if the
remainder is then empty, iteration terminates yielding no further tokens,
and otherwise the `debug_assert!` on emptiness fails and the process aborts
— in neither case is any token emitted after `END`. -/
theorem C7_end_tag_amended (strs : List Nat) (t0 t1 t2 t3 : Nat)
    (rest : List Nat) (htag : be32 t0 t1 t2 t3 = FDT_END) :
    structNext ⟨t0 :: t1 :: t2 :: t3 :: rest, strs⟩
      = if rest.isEmpty then .done else .fatal .assertFailed := by
  show structNextAux strs (t0 :: t1 :: t2 :: t3 :: rest) = _
  rw [structNextAux, htag]
  norm_num [FDT_BEGIN_NODE, FDT_END_NODE, FDT_PROP, FDT_NOP, FDT_END]

/-- Counterexample for C7 as stated: on an `END` tag followed by a further
record, the remainder after advancing by 4 is not empty, and iteration does
not terminate cleanly — the debug assertion aborts instead. -/
theorem C7_end_tag_counterexample :
    structNext ⟨[0, 0, 0, 9, 0, 0, 0, 2], []⟩ = .fatal .assertFailed ∧
      [0, 0, 0, 9, 0, 0, 0, 2].drop 4 ≠ ([] : List Nat) := by decide

/-- Witness for C7 (amended): an `END` tag with empty remainder terminates
the iteration. -/
theorem C7_end_tag_amended_witness :
    structNext ⟨[0, 0, 0, 9], []⟩
      = if ([] : List Nat).isEmpty then .done else .fatal .assertFailed :=
  C7_end_tag_amended [] 0 0 0 9 [] (by decide)

/-- C8 (amended): over a whole struct block the record-level tokenizer run
consumes exactly the declared struct-block size: the bytes of the records
behind the emitted tokens (each 4-byte-aligned) plus the bytes of the
token-less control records (`NOP` and the final `END`) sum to
`size_dt_struct`. -/
theorem C8_struct_bytes_amended (f : Fdt) (strs : List Nat) (fuel : Nat)
    (ts : List (StructItem × Nat)) (ctrl : Nat)
    (hbounds : f.header.off_dt_struct + f.header.size_dt_struct ≤ f.data.length)
    (hrun : runStructAux strs fuel f.dt_struct_slice = some (ts, ctrl)) :
    (ts.map (·.2)).sum + ctrl = f.header.size_dt_struct := by
  have h := runStructAux_sum strs fuel _ ts ctrl hrun
  rw [Fdt.dt_struct_slice, List.length_take, List.length_drop] at h
  omega

/-- Counterexample for C8 as stated: in the 16-byte block `root{} END`
(struct-block size 16 declared in the header), the emitted tokens consume
8 + 4 = 12 bytes — the `END` record's 4 bytes belong to no emitted token, so
the sum over emitted tokens alone is not the declared size. -/
theorem C8_struct_bytes_counterexample :
    Fdt.dt_struct_slice ⟨⟨0xd00dfeed, 16, 0, 0, 0, 17, 17, 0, 0, 16⟩,
        [0, 0, 0, 1, 0, 0, 0, 0, 0, 0, 0, 2, 0, 0, 0, 9]⟩
      = [0, 0, 0, 1, 0, 0, 0, 0, 0, 0, 0, 2, 0, 0, 0, 9] ∧
    runStruct [] [0, 0, 0, 1, 0, 0, 0, 0, 0, 0, 0, 2, 0, 0, 0, 9]
      = some ([(.BeginNode [], 8), (.EndNode, 4)], 4) ∧
    (([((StructItem.BeginNode []), 8), (.EndNode, 4)]).map (·.2)).sum = 12 ∧
    (12 : Nat) ≠ (⟨⟨0xd00dfeed, 16, 0, 0, 0, 17, 17, 0, 0, 16⟩,
        [0, 0, 0, 1, 0, 0, 0, 0, 0, 0, 0, 2, 0, 0, 0, 9]⟩ : Fdt).header.size_dt_struct := by
  decide

/-- Witness for C8 (amended) on the same 16-byte block: token bytes 12 plus
control bytes 4 equal the declared size 16. -/
theorem C8_struct_bytes_amended_witness :
    (([((StructItem.BeginNode []), 8), (.EndNode, 4)]).map (·.2)).sum + 4
      = (⟨⟨0xd00dfeed, 16, 0, 0, 0, 17, 17, 0, 0, 16⟩,
          [0, 0, 0, 1, 0, 0, 0, 0, 0, 0, 0, 2, 0, 0, 0, 9]⟩ : Fdt).header.size_dt_struct :=
  C8_struct_bytes_amended
    ⟨⟨0xd00dfeed, 16, 0, 0, 0, 17, 17, 0, 0, 16⟩,
      [0, 0, 0, 1, 0, 0, 0, 0, 0, 0, 0, 2, 0, 0, 0, 9]⟩
    [] 16 [(.BeginNode [], 8), (.EndNode, 4)] 4 (by decide) (by decide)

/-- C9: the reference tokenizer aborts the whole process — it never returns
a token or a typed error — on (i) a tag outside the five known values, (ii)
a node name that is not well-formed UTF-8, (iii) a property name (resolved
from the string block at the record's name offset) that is not well-formed
UTF-8, and (iv) a property record whose declared value length exceeds the
remaining bytes. -/
theorem C9_abort_on_malformed :
    (∀ (strs : List Nat) (t0 t1 t2 t3 : Nat) (rest : List Nat),
      be32 t0 t1 t2 t3 ≠ FDT_BEGIN_NODE → be32 t0 t1 t2 t3 ≠ FDT_END_NODE →
      be32 t0 t1 t2 t3 ≠ FDT_PROP → be32 t0 t1 t2 t3 ≠ FDT_NOP →
      be32 t0 t1 t2 t3 ≠ FDT_END →
      structNext ⟨t0 :: t1 :: t2 :: t3 :: rest, strs⟩
        = .fatal .unrecognizedTag) ∧
    (∀ (strs : List Nat) (t0 t1 t2 t3 : Nat) (rest name : List Nat),
      be32 t0 t1 t2 t3 = FDT_BEGIN_NODE → bytesUntilNul rest = some name →
      utf8Valid name = false →
      structNext ⟨t0 :: t1 :: t2 :: t3 :: rest, strs⟩
        = .fatal .invalidUtf8) ∧
    (∀ (strs : List Nat) (t0 t1 t2 t3 l0 l1 l2 l3 n0 n1 n2 n3 : Nat)
      (body name : List Nat),
      be32 t0 t1 t2 t3 = FDT_PROP → be32 n0 n1 n2 n3 ≤ strs.length →
      bytesUntilNul (strs.drop (be32 n0 n1 n2 n3)) = some name →
      utf8Valid name = false →
      structNext ⟨t0 :: t1 :: t2 :: t3 :: l0 :: l1 :: l2 :: l3 ::
          n0 :: n1 :: n2 :: n3 :: body, strs⟩
        = .fatal .invalidUtf8) ∧
    (∀ (strs : List Nat) (t0 t1 t2 t3 l0 l1 l2 l3 n0 n1 n2 n3 : Nat)
      (body name : List Nat),
      be32 t0 t1 t2 t3 = FDT_PROP → be32 n0 n1 n2 n3 ≤ strs.length →
      bytesUntilNul (strs.drop (be32 n0 n1 n2 n3)) = some name →
      utf8Valid name = true → body.length < be32 l0 l1 l2 l3 →
      structNext ⟨t0 :: t1 :: t2 :: t3 :: l0 :: l1 :: l2 :: l3 ::
          n0 :: n1 :: n2 :: n3 :: body, strs⟩
        = .fatal .sliceOob) := by
  refine ⟨?_, ?_, ?_, ?_⟩
  · intro strs t0 t1 t2 t3 rest h1 h2 h3 h4 h5
    show structNextAux strs (t0 :: t1 :: t2 :: t3 :: rest) = _
    rw [structNextAux, if_neg h1, if_neg h2, if_neg h3, if_neg h4, if_neg h5]
  · intro strs t0 t1 t2 t3 rest name htag hname hutf
    show structNextAux strs (t0 :: t1 :: t2 :: t3 :: rest) = _
    rw [structNextAux, htag]
    simp [hname, hutf, FDT_BEGIN_NODE]
  · intro strs t0 t1 t2 t3 l0 l1 l2 l3 n0 n1 n2 n3 body name
      htag hoff hname hutf
    show structNextAux strs (t0 :: t1 :: t2 :: t3 :: l0 :: l1 :: l2 :: l3 ::
      n0 :: n1 :: n2 :: n3 :: body) = _
    rw [structNextAux, htag]
    simp [propFields, hname, hoff, hutf, FDT_BEGIN_NODE, FDT_END_NODE, FDT_PROP]
  · intro strs t0 t1 t2 t3 l0 l1 l2 l3 n0 n1 n2 n3 body name
      htag hoff hname hutf hlen
    show structNextAux strs (t0 :: t1 :: t2 :: t3 :: l0 :: l1 :: l2 :: l3 ::
      n0 :: n1 :: n2 :: n3 :: body) = _
    rw [structNextAux, htag]
    simp [propFields, hname, hoff, hutf, FDT_BEGIN_NODE, FDT_END_NODE, FDT_PROP,
      show ¬(be32 l0 l1 l2 l3 ≤ body.length) from by omega]

/-- Witness for C9: tag `0x5` aborts; `BeginNode` with the non-UTF-8 name
byte `0xFF` aborts; a property record whose string-block name is the
non-UTF-8 byte `0xFF` aborts; a property record declaring a 9-byte value
with only one byte remaining aborts. -/
theorem C9_abort_on_malformed_witness :
    structNext ⟨[0, 0, 0, 5], []⟩ = .fatal .unrecognizedTag ∧
    structNext ⟨[0, 0, 0, 1, 255, 0, 0, 0], []⟩ = .fatal .invalidUtf8 ∧
    structNext ⟨[0, 0, 0, 3, 0, 0, 0, 0, 0, 0, 0, 0], [255, 0]⟩
      = .fatal .invalidUtf8 ∧
    structNext ⟨[0, 0, 0, 3, 0, 0, 0, 9, 0, 0, 0, 0, 0], [0]⟩
      = .fatal .sliceOob :=
  ⟨C9_abort_on_malformed.1 [] 0 0 0 5 [] (by decide) (by decide) (by decide)
      (by decide) (by decide),
   C9_abort_on_malformed.2.1 [] 0 0 0 1 [255, 0, 0, 0] [255] (by decide)
      (by decide) (by decide),
   C9_abort_on_malformed.2.2.1 [255, 0] 0 0 0 3 0 0 0 0 0 0 0 0 [] [255]
      (by decide) (by decide) (by decide) (by decide),
   C9_abort_on_malformed.2.2.2 [0] 0 0 0 3 0 0 0 9 0 0 0 0 [0] [] (by decide)
      (by decide) (by decide) (by decide) (by decide)⟩

/-- C10: with no all-zero sentinel anywhere among the complete 16-byte
records, the enumeration decodes exactly the complete records — one per full
16 bytes, any shorter trailing fragment ignored — and terminates silently
with no abort. -/
theorem C10_no_sentinel_truncation (f : Fdt)
    (hoff : f.header.off_mem_rsvmap ≤ f.data.length)
    (hall : ∀ c ∈ chunks16 (f.data.drop f.header.off_mem_rsvmap),
      ¬((memResvOf c).address = 0 ∧ (memResvOf c).size = 0)) :
    f.memory_reservations
        = some ((chunks16 (f.data.drop f.header.off_mem_rsvmap)).map memResvOf) ∧
      (chunks16 (f.data.drop f.header.off_mem_rsvmap)).length
        = (f.data.drop f.header.off_mem_rsvmap).length / 16 :=
  ⟨by rw [Fdt.memory_reservations, if_pos hoff, mapWhileResv_all hall],
    chunks16_length _⟩

/-- Witness for C10: one complete non-zero record followed by a 3-byte
fragment and no sentinel yields exactly that one record (19 / 16 = 1). -/
theorem C10_no_sentinel_truncation_witness :
    Fdt.memory_reservations
        ⟨⟨1, 2, 3, 4, 0, 5, 6, 7, 8, 9⟩,
          [51, 52, 53, 54, 55, 56, 57, 58, 61, 62, 63, 64, 65, 66, 67, 68, 7, 7, 7]⟩
      = some ((chunks16
          ([51, 52, 53, 54, 55, 56, 57, 58, 61, 62, 63, 64, 65, 66, 67, 68, 7, 7, 7].drop 0)).map
            memResvOf) ∧
    (chunks16
        ([51, 52, 53, 54, 55, 56, 57, 58, 61, 62, 63, 64, 65, 66, 67, 68, 7, 7, 7].drop 0)).length
      = ([51, 52, 53, 54, 55, 56, 57, 58, 61, 62, 63, 64, 65, 66, 67, 68, 7, 7, 7].drop 0).length / 16 :=
  C10_no_sentinel_truncation
    ⟨⟨1, 2, 3, 4, 0, 5, 6, 7, 8, 9⟩,
      [51, 52, 53, 54, 55, 56, 57, 58, 61, 62, 63, 64, 65, 66, 67, 68, 7, 7, 7]⟩
    (by decide) (by decide)
